import Mathlib

/-!
Shallow embedding of the `ai_hair_stylist` package: preference normalization
(`preferences.py`), the hairstyle catalog (`catalog.py`) and the scoring /
ranking engine (`recommendation.py`).  Python strings are modelled by Lean
`String` (code-point lists); `str.strip` / `str.lower` are modelled on the
ASCII fragment (Python's `lower` maps `A`-`Z` to `a`-`z` and fixes other ASCII
characters; `strip` removes the ASCII whitespace characters).  Python `float`
scores are modelled by `ℚ`: every weight in the program is a small decimal and
the claims under study concern order and equality, not rounding.  Python's
stable `sorted` is modelled by `List.insertionSort`, which is stable for the
same comparator.  `frozenset` is modelled by `Finset String` and `dict`
iteration order (insertion order) by `List` order.
-/

namespace AiHairStylist

/-! ### Python string primitives -/

/-- Code-point test for the ASCII whitespace characters removed by
`str.strip()` (space, tab, newline, carriage return, vertical tab, form
feed). -/
def pyWhitespace (c : Char) : Bool :=
  c.toNat = 32 || c.toNat = 9 || c.toNat = 10 || c.toNat = 13 ||
    c.toNat = 11 || c.toNat = 12

/-- ASCII lowercasing of one character, as performed by `str.lower()` on the
ASCII fragment: `A`-`Z` (code points 65-90) map 32 code points up. -/
def lowerChar (c : Char) : Char :=
  if 65 ≤ c.toNat ∧ c.toNat ≤ 90 then Char.ofNat (c.toNat + 32) else c

/-- `str.lower()`. -/
def lowerStr (s : String) : String := ⟨s.data.map lowerChar⟩

/-- The character-list form of `str.strip()`: drop leading and trailing
whitespace. -/
def stripList (l : List Char) : List Char :=
  ((l.dropWhile pyWhitespace).reverse.dropWhile pyWhitespace).reverse

/-- `str.strip()`. -/
def stripStr (s : String) : String := ⟨stripList s.data⟩

theorem toNat_ofNat_valid (n : Nat) (h : n < 55296) : (Char.ofNat n).toNat = n := by
  have hv : n.isValidChar := Or.inl h
  rw [Char.ofNat, dif_pos hv]
  rfl

theorem toNat_lowerChar (c : Char) :
    (lowerChar c).toNat =
      if 65 ≤ c.toNat ∧ c.toNat ≤ 90 then c.toNat + 32 else c.toNat := by
  unfold lowerChar
  split
  case isTrue h => exact toNat_ofNat_valid _ (by omega)
  case isFalse h => rfl

theorem lowerChar_eq_self (c : Char) (h : ¬(65 ≤ c.toNat ∧ c.toNat ≤ 90)) :
    lowerChar c = c := by
  unfold lowerChar
  rw [if_neg h]

theorem lowerChar_notUpper (c : Char) :
    ¬(65 ≤ (lowerChar c).toNat ∧ (lowerChar c).toNat ≤ 90) := by
  rw [toNat_lowerChar]
  by_cases h : 65 ≤ c.toNat ∧ c.toNat ≤ 90
  · rw [if_pos h]; omega
  · rw [if_neg h]; exact h

theorem lowerChar_idem (c : Char) : lowerChar (lowerChar c) = lowerChar c :=
  lowerChar_eq_self (lowerChar c) (lowerChar_notUpper c)

theorem pyWhitespace_eq_false_of_ge (c : Char) (h : 65 ≤ c.toNat) :
    pyWhitespace c = false := by
  unfold pyWhitespace
  simp only [Bool.or_eq_false_iff, decide_eq_false_iff_not]
  omega

theorem pyWhitespace_lowerChar (c : Char) :
    pyWhitespace (lowerChar c) = pyWhitespace c := by
  by_cases h : 65 ≤ c.toNat ∧ c.toNat ≤ 90
  · have hge : 65 ≤ (lowerChar c).toNat := by
      rw [toNat_lowerChar, if_pos h]; omega
    rw [pyWhitespace_eq_false_of_ge c h.1, pyWhitespace_eq_false_of_ge _ hge]
  · rw [lowerChar_eq_self c h]

/-! ### Generic `dropWhile` and `strip` facts -/

theorem dropWhile_self_dropWhile (p : α → Bool) (l : List α) :
    (l.dropWhile p).dropWhile p = l.dropWhile p := by
  induction l with
  | nil => rfl
  | cons a t ih =>
    by_cases h : p a
    · rw [List.dropWhile_cons_of_pos h]; exact ih
    · rw [List.dropWhile_cons_of_neg h, List.dropWhile_cons_of_neg h]

theorem dropWhile_eq_self_of_isPre (p : α → Bool) {l k : List α}
    (hl : l.dropWhile p = l) (hk : k <+: l) : k.dropWhile p = k := by
  cases k with
  | nil => rfl
  | cons a k₂ =>
    cases l with
    | nil => exact absurd (List.IsPrefix.length_le hk) (by simp)
    | cons b l₂ =>
      have hab : a = b := by
        obtain ⟨t, ht⟩ := hk
        have := congrArg (fun m => m.head?) ht
        simpa using this
      subst hab
      by_cases hp : p a
      · exfalso
        rw [List.dropWhile_cons_of_pos hp] at hl
        have := congrArg List.length hl
        have hle : (l₂.dropWhile p).length ≤ l₂.length :=
          (List.dropWhile_suffix p).length_le
        simp at this
        omega
      · rw [List.dropWhile_cons_of_neg hp]

theorem stripList_idem (l : List Char) : stripList (stripList l) = stripList l := by
  unfold stripList
  set p := pyWhitespace
  set A := l.dropWhile p with hA
  set B := (A.reverse).dropWhile p with hB
  have hDA : A.dropWhile p = A := dropWhile_self_dropWhile p l
  have hDB : B.dropWhile p = B := dropWhile_self_dropWhile p A.reverse
  have hpre : B.reverse <+: A := by
    have hsuf : B <:+ A.reverse := List.dropWhile_suffix p
    have hrev : B.reverse <+: (A.reverse).reverse := List.reverse_prefix.mpr hsuf
    rwa [List.reverse_reverse] at hrev
  have hDBr : (B.reverse).dropWhile p = B.reverse :=
    dropWhile_eq_self_of_isPre p hDA hpre
  rw [hDBr]
  rw [List.reverse_reverse, hDB]

theorem stripList_map_lowerChar (l : List Char) :
    stripList (l.map lowerChar) = (stripList l).map lowerChar := by
  unfold stripList
  have hdw : ∀ (m : List Char),
      (m.map lowerChar).dropWhile pyWhitespace =
        (m.dropWhile pyWhitespace).map lowerChar := by
    intro m
    rw [List.dropWhile_map]
    have hfun : pyWhitespace ∘ lowerChar = pyWhitespace :=
      funext fun c => pyWhitespace_lowerChar c
    rw [hfun]
  rw [hdw, ← List.map_reverse, hdw, List.map_reverse]

theorem map_lowerChar_idem (l : List Char) :
    (l.map lowerChar).map lowerChar = l.map lowerChar := by
  rw [List.map_map]
  congr 1
  funext c
  exact lowerChar_idem c

/-! ### Preference normalization (`preferences.py`) -/

/-- `str(value).strip().lower()`: the scalar canonical form used by
`_normalise_value`. -/
def normStr (s : String) : String := ⟨(stripList s.data).map lowerChar⟩

/-- `_normalise_value`: `None` stays absent, otherwise strip and lowercase,
mapping a string that becomes empty to absent (`value or None`). -/
def normVal : Option String → Option String
  | none => none
  | some s => if normStr s = "" then none else some (normStr s)

theorem normStr_idem (s : String) : normStr (normStr s) = normStr s := by
  unfold normStr
  apply congrArg
  show (stripList ((stripList s.data).map lowerChar)).map lowerChar
      = (stripList s.data).map lowerChar
  rw [stripList_map_lowerChar, stripList_idem, map_lowerChar_idem]

theorem normVal_none : normVal none = none := rfl

theorem normVal_some (s : String) :
    normVal (some s) = if normStr s = "" then none else some (normStr s) := rfl

theorem normVal_idem (v : Option String) : normVal (normVal v) = normVal v := by
  cases v with
  | none => rfl
  | some s =>
    rw [normVal_some]
    by_cases h : normStr s = ""
    · rw [if_pos h]; rfl
    · rw [if_neg h, normVal_some, normStr_idem, if_neg h]

/-- `_normalise_keywords` acting on the underlying set of an iterable:
stringify (identity here), strip, lowercase, drop elements that strip to
empty, collect into a set. -/
def normaliseKeywords (S : Finset String) : Finset String :=
  (S.filter (fun s => stripStr s ≠ "")).image normStr

theorem stripStr_normStr (s : String) : stripStr (normStr s) = normStr s := by
  unfold stripStr normStr
  apply congrArg
  show stripList ((stripList s.data).map lowerChar) = (stripList s.data).map lowerChar
  rw [stripList_map_lowerChar, stripList_idem]

theorem normStr_data (s : String) : (normStr s).data = (stripList s.data).map lowerChar := rfl

theorem stripStr_data (s : String) : (stripStr s).data = stripList s.data := rfl

theorem string_eq_empty_iff (s : String) : s = "" ↔ s.data = [] := by
  constructor
  · intro h; subst h; rfl
  · intro h; exact String.ext (h.trans rfl)

theorem normStr_eq_empty_iff (s : String) : normStr s = "" ↔ stripStr s = "" := by
  rw [string_eq_empty_iff, string_eq_empty_iff, normStr_data, stripStr_data]
  simp

theorem mem_normaliseKeywords (S : Finset String) (x : String) :
    x ∈ normaliseKeywords S ↔ ∃ s, (s ∈ S ∧ stripStr s ≠ "") ∧ normStr s = x := by
  constructor
  · intro hx
    rw [normaliseKeywords, Finset.mem_image] at hx
    obtain ⟨s, hs, he⟩ := hx
    rw [Finset.mem_filter] at hs
    exact ⟨s, hs, he⟩
  · rintro ⟨s, hs, he⟩
    rw [normaliseKeywords, Finset.mem_image]
    exact ⟨s, Finset.mem_filter.mpr hs, he⟩

theorem normaliseKeywords_fixes (S : Finset String) :
    ∀ t ∈ normaliseKeywords S, stripStr t ≠ "" ∧ normStr t = t := by
  intro t ht
  rw [mem_normaliseKeywords] at ht
  obtain ⟨s, ⟨_, hne⟩, rfl⟩ := ht
  refine ⟨?ne, normStr_idem s⟩
  case ne =>
    rw [stripStr_normStr]
    intro he
    exact hne ((normStr_eq_empty_iff s).mp he)

theorem normaliseKeywords_idem (S : Finset String) :
    normaliseKeywords (normaliseKeywords S) = normaliseKeywords S := by
  apply Finset.ext
  intro x
  rw [mem_normaliseKeywords]
  constructor
  · rintro ⟨t, ⟨ht, _⟩, rfl⟩
    rw [(normaliseKeywords_fixes S t ht).2]
    exact ht
  · intro hx
    obtain ⟨hne, hid⟩ := normaliseKeywords_fixes S x hx
    exact ⟨x, ⟨hx, hne⟩, hid⟩

/-! ### Data model (`preferences.py`, `catalog.py`, `recommendation.py`) -/

/-- `ClientPreferences`: the dataclass after `__post_init__` ran, i.e. the
fields hold whatever `__post_init__` stored.  `mkPreferences` below models
construction (which always runs `__post_init__`). -/
structure ClientPreferences where
  face_shape : Option String
  hair_length : Option String
  hair_texture : Option String
  gender : Option String
  occasion : Option String
  maintenance : Option String
  keywords : Finset String
  avoid : Finset String
deriving DecidableEq

/-- `ClientPreferences(...)` construction: `__post_init__` normalizes every
scalar with `_normalise_value` and every set with `_normalise_keywords`. -/
def mkPreferences (fs hl ht g o m : Option String) (kw av : Finset String) :
    ClientPreferences :=
  ⟨normVal fs, normVal hl, normVal ht, normVal g, normVal o, normVal m,
    normaliseKeywords kw, normaliseKeywords av⟩

/-- A loosely structured mapping accepted by `ClientPreferences.from_dict`:
each recognized key either absent (`none`) or present with a value.  The
iterable values are carried as lists; `none` for a collection key means the
key is absent from the mapping. -/
structure PrefsPayload where
  face_shape : Option String
  hair_length : Option String
  hair_texture : Option String
  gender : Option String
  occasion : Option String
  maintenance : Option String
  keywords : Option (List String)
  tags : Option (List String)
  avoid : Option (List String)

/-- Python truthiness of `data.pop(key, None)` for a collection-valued key:
`None` and the empty list are falsy. -/
def listTruthy : Option (List String) → Bool
  | some (_ :: _) => true
  | _ => false

/-- `ClientPreferences.from_dict`: `keywords = data.pop("keywords", None) or
data.pop("tags", None)`, `avoid` taken verbatim, then the constructor runs
(absent collection keys fall back to the dataclass default, the empty set). -/
def fromDict (d : PrefsPayload) : ClientPreferences :=
  let kw := if listTruthy d.keywords then d.keywords else d.tags
  mkPreferences d.face_shape d.hair_length d.hair_texture d.gender d.occasion
    d.maintenance ((kw.getD []).toFinset) (((d.avoid).getD []).toFinset)

/-- `ClientPreferences.merge_keywords`: rebuild the preferences with
`keywords = self.keywords | _normalise_keywords(extra)` and every other field
copied; the constructor re-runs `__post_init__`. -/
def mergeKeywords (p : ClientPreferences) (extra : Finset String) :
    ClientPreferences :=
  mkPreferences p.face_shape p.hair_length p.hair_texture p.gender p.occasion
    p.maintenance (p.keywords ∪ normaliseKeywords extra) p.avoid

/-- `Hairstyle`: an entry of the catalog (normalized at construction by
`Hairstyle.from_mapping`, which is thin I/O and not modelled here; the fields
hold whatever the record carried). -/
structure Hairstyle where
  name : String
  description : String
  face_shapes : Finset String
  hair_lengths : Finset String
  hair_textures : Finset String
  genders : Finset String
  occasions : Finset String
  maintenance : String
  tags : Finset String
deriving DecidableEq

/-- The key under which `HairstyleCatalog.__init__` stores a style:
`style.name.lower()`. -/
def catalogKey (h : Hairstyle) : String := lowerStr h.name

/-- The loop body of `HairstyleCatalog.__init__`: insert styles one by one
into the name-keyed dict (modelled as the list of values in insertion order),
raising `ValueError` on a duplicate lowercased name. -/
def catalogInsert : List Hairstyle → List Hairstyle → Except String (List Hairstyle)
  | acc, [] => Except.ok acc
  | acc, s :: rest =>
    if (acc.map catalogKey).contains (catalogKey s) then
      Except.error ("Duplicate hairstyle: " ++ s.name)
    else
      catalogInsert (acc ++ [s]) rest

/-- `HairstyleCatalog.__init__` on a sequence of styles. -/
def catalogInit (styles : List Hairstyle) : Except String (List Hairstyle) :=
  catalogInsert [] styles

/-- `HairstyleCatalog.find`: dict lookup under `name.lower()`, re-raised as a
`KeyError` carrying the requested name when missing.  On a catalog whose keys
are distinct (the only kind `__init__` produces), dict lookup returns the
entry whose key matches, modelled as `find?`. -/
def catalogFind (styles : List Hairstyle) (name : String) : Except String Hairstyle :=
  match styles.find? (fun h => catalogKey h == lowerStr name) with
  | some h => Except.ok h
  | none => Except.error ("Unknown hairstyle: " ++ name)

/-! ### Scoring engine (`recommendation.py`) -/

/-- A total assignment of the eight weight keys, as produced by
`DEFAULT_WEIGHTS | (weights or {})`. -/
structure Weights where
  face_shape : ℚ
  hair_length : ℚ
  hair_texture : ℚ
  gender : ℚ
  occasion : ℚ
  maintenance : ℚ
  keyword : ℚ
  avoid : ℚ
deriving DecidableEq

/-- `DEFAULT_WEIGHTS`. -/
def DEFAULT_WEIGHTS : Weights :=
  ⟨3, 5/2, 3, 1, 3/2, 3/2, 4/5, -4⟩

/-- `_MAINTENANCE_LEVELS.get`: the ordinal scale low=0, medium=1, high=2,
`None` on any other string. -/
def maintenanceLevel (s : String) : Option Int :=
  if s = "low" then some 0
  else if s = "medium" then some 1
  else if s = "high" then some 2
  else none

/-- `Recommendation`. -/
structure Recommendation where
  hairstyle : Hairstyle
  score : ℚ
  reasons : List String
deriving DecidableEq

/-- One single-valued attribute clause of `_score`: if the preference field is
truthy and a member of the hairstyle's set, add the weight and append the
templated reason. -/
def scoreScalar (field : Option String) (values : Finset String) (wt : ℚ)
    (mk : String → String) (acc : ℚ × List String) : ℚ × List String :=
  match field with
  | none => acc
  | some v => if v ≠ "" ∧ v ∈ values then (acc.1 + wt, acc.2 ++ [mk v]) else acc

/-- The maintenance clause of `_score`. -/
def scoreMaintenance (w : Weights) (h : Hairstyle) (p : ClientPreferences)
    (acc : ℚ × List String) : ℚ × List String :=
  match p.maintenance with
  | none => acc
  | some m =>
    if m ≠ "" then
      match maintenanceLevel m, maintenanceLevel h.maintenance with
      | some desired, some current =>
        if (desired - current).natAbs = 0 then
          (acc.1 + w.maintenance, acc.2 ++ ["meets " ++ m ++ " maintenance goal"])
        else if (desired - current).natAbs = 1 then
          (acc.1 + w.maintenance * (1/2),
            acc.2 ++ ["slightly different maintenance but still manageable"])
        else acc
      | _, _ => acc
    else acc

/-- `", ".join(sorted(S))`. -/
def joinSorted (S : Finset String) : String :=
  String.intercalate ", " (S.sort (fun a b => a ≤ b))

/-- The keyword clause of `_score`. -/
def scoreKeywords (w : Weights) (h : Hairstyle) (p : ClientPreferences)
    (acc : ℚ × List String) : ℚ × List String :=
  if p.keywords ≠ ∅ then
    if p.keywords ∩ h.tags ≠ ∅ then
      (acc.1 + w.keyword * ((p.keywords ∩ h.tags).card : ℚ),
        acc.2 ++ ["matches requested features: " ++ joinSorted (p.keywords ∩ h.tags)])
    else acc
  else acc

/-- The avoid clause of `_score`. -/
def scoreAvoid (w : Weights) (h : Hairstyle) (p : ClientPreferences)
    (acc : ℚ × List String) : ℚ × List String :=
  if p.avoid ≠ ∅ then
    if p.avoid ∩ h.tags ≠ ∅ then
      (acc.1 + w.avoid * ((p.avoid ∩ h.tags).card : ℚ),
        acc.2 ++ ["conflicts with avoid list: " ++ joinSorted (p.avoid ∩ h.tags)])
    else acc
  else acc

/-- The accumulated `(score, reasons)` state of `_score` after the seven
clauses before the avoid clause, in program order: face shape, hair length,
hair texture, gender, occasion, maintenance, keyword. -/
def preAvoid (w : Weights) (h : Hairstyle) (p : ClientPreferences) : ℚ × List String :=
  scoreKeywords w h p (scoreMaintenance w h p
    (scoreScalar p.occasion h.occasions w.occasion
      (fun v => "appropriate for " ++ v ++ " occasions")
      (scoreScalar p.gender h.genders w.gender
        (fun v => "popular with " ++ v ++ " clients")
        (scoreScalar p.hair_texture h.hair_textures w.hair_texture
          (fun v => "works with " ++ v ++ " texture")
          (scoreScalar p.hair_length h.hair_lengths w.hair_length
            (fun v => "matches " ++ v ++ " length goal")
            (scoreScalar p.face_shape h.face_shapes w.face_shape
              (fun v => "suits " ++ v ++ " face shapes") (0, [])))))))

/-- `RecommendationEngine._score`: the eight clauses in program order, the
avoid clause last. -/
def score (w : Weights) (h : Hairstyle) (p : ClientPreferences) : Recommendation :=
  ⟨h, (scoreAvoid w h p (preAvoid w h p)).1, (scoreAvoid w h p (preAvoid w h p)).2⟩

/-- `reason.startswith("conflicts with")` on code-point lists. -/
def strStartsWith : List Char → List Char → Bool
  | [], _ => true
  | _ :: _, [] => false
  | a :: as, b :: bs => a = b && strStartsWith as bs

/-- Whether one reason marks a hard conflict. -/
def reasonIsConflict (s : String) : Bool :=
  strStartsWith "conflicts with".data s.data

/-- `RecommendationEngine._has_conflict`. -/
def hasConflict (r : Recommendation) : Bool :=
  r.reasons.any reasonIsConflict

/-- Python string `<=`: lexicographic comparison of code points. -/
def strLeb : List Char → List Char → Bool
  | [], _ => true
  | _ :: _, [] => false
  | a :: as, b :: bs =>
    if a.toNat < b.toNat then true
    else if b.toNat < a.toNat then false
    else strLeb as bs

theorem strLeb_total (a : List Char) : ∀ b, strLeb a b = true ∨ strLeb b a = true := by
  induction a with
  | nil => intro b; exact Or.inl rfl
  | cons x as ih =>
    intro b
    cases b with
    | nil => exact Or.inr rfl
    | cons y bs =>
      rcases Nat.lt_trichotomy x.toNat y.toNat with h | h | h
      · left; unfold strLeb; rw [if_pos h]
      · have h1 : ¬ x.toNat < y.toNat := by omega
        have h2 : ¬ y.toNat < x.toNat := by omega
        rcases ih bs with h3 | h3
        · left; unfold strLeb; rw [if_neg h1, if_neg h2]; exact h3
        · right; unfold strLeb; rw [if_neg h2, if_neg h1]; exact h3
      · right; unfold strLeb; rw [if_pos h]

theorem strLeb_trans (a : List Char) :
    ∀ b c, strLeb a b = true → strLeb b c = true → strLeb a c = true := by
  induction a with
  | nil => intro b c _ _; rfl
  | cons x as ih =>
    intro b c hab hbc
    cases b with
    | nil => exact absurd hab (by simp [strLeb])
    | cons y bs =>
      cases c with
      | nil => exact absurd hbc (by simp [strLeb])
      | cons z cs =>
        unfold strLeb at hab hbc ⊢
        by_cases hxy : x.toNat < y.toNat
        · by_cases hyz : y.toNat < z.toNat
          · rw [if_pos (by omega)]
          · by_cases hzy : z.toNat < y.toNat
            · rw [if_neg hyz, if_pos hzy] at hbc
              exact absurd hbc (by simp)
            · rw [if_pos (by omega)]
        · by_cases hyx : y.toNat < x.toNat
          · rw [if_neg hxy, if_pos hyx] at hab
            exact absurd hab (by simp)
          · rw [if_neg hxy, if_neg hyx] at hab
            by_cases hyz : y.toNat < z.toNat
            · rw [if_pos (by omega)]
            · by_cases hzy : z.toNat < y.toNat
              · rw [if_neg hyz, if_pos hzy] at hbc
                exact absurd hbc (by simp)
              · rw [if_neg hyz, if_neg hzy] at hbc
                rw [if_neg (by omega), if_neg (by omega)]
                exact ih bs cs hab hbc

/-- The Python sort key `(rec.score, rec.hairstyle.name.lower())`. -/
def pyKey (r : Recommendation) : ℚ × String := (r.score, lowerStr r.hairstyle.name)

/-- Lexicographic order on sort keys, as Python compares tuples. -/
def keyLex (a b : ℚ × String) : Prop :=
  a.1 < b.1 ∨ (a.1 = b.1 ∧ strLeb a.2.data b.2.data = true)

instance : DecidableRel keyLex := fun a b => by
  unfold keyLex; infer_instance

/-- `a` may precede `b` in `sorted(..., reverse=True)`: the key of `b` is
lexicographically at most the key of `a`. -/
def rankRel (a b : Recommendation) : Prop := keyLex (pyKey b) (pyKey a)

instance : DecidableRel rankRel := fun a b => by
  unfold rankRel; infer_instance

instance : IsTotal Recommendation rankRel := by
  constructor
  intro a b
  unfold rankRel keyLex
  rcases lt_trichotomy (pyKey b).1 (pyKey a).1 with h | h | h
  · exact Or.inl (Or.inl h)
  · rcases strLeb_total (pyKey b).2.data (pyKey a).2.data with h2 | h2
    · exact Or.inl (Or.inr ⟨h, h2⟩)
    · exact Or.inr (Or.inr ⟨h.symm, h2⟩)
  · exact Or.inr (Or.inl h)

instance : IsTrans Recommendation rankRel := by
  constructor
  intro a b c hab hbc
  unfold rankRel keyLex at hab hbc ⊢
  rcases hab with h1 | ⟨h1, h1s⟩ <;> rcases hbc with h2 | ⟨h2, h2s⟩
  · exact Or.inl (lt_trans h2 h1)
  · exact Or.inl (h2 ▸ h1)
  · exact Or.inl (lt_of_lt_of_le h2 (le_of_eq h1))
  · exact Or.inr ⟨h2.trans h1, strLeb_trans _ _ _ h2s h1s⟩

/-- `RecommendationEngine.rank`: score every entry, keep those at or above the
minimum score and without a conflict reason, then sort stably by descending
`(score, name.lower())` (Python's stable `sorted` with `reverse=True` is a
stable sort for `rankRel`). -/
def rank (w : Weights) (minScore : ℚ) (catalog : List Hairstyle)
    (p : ClientPreferences) : List Recommendation :=
  ((catalog.map (fun style => score w style p)).filter
    (fun r => decide (minScore ≤ r.score) && !(hasConflict r))).insertionSort rankRel

/-- `RecommendationEngine.recommend`: truncate the ranked list when the limit
is strictly positive. -/
def recommend (w : Weights) (minScore : ℚ) (catalog : List Hairstyle)
    (p : ClientPreferences) (limit : Int) : List Recommendation :=
  if 0 < limit then (rank w minScore catalog p).take limit.toNat
  else rank w minScore catalog p

/-! ### Helper lemmas -/

theorem strStartsWith_append (pat l₁ l₂ : List Char)
    (h : strStartsWith pat l₁ = true) : strStartsWith pat (l₁ ++ l₂) = true := by
  induction pat generalizing l₁ with
  | nil => rfl
  | cons a as ih =>
    cases l₁ with
    | nil => exact absurd h (by simp [strStartsWith])
    | cons b bs =>
      rw [List.cons_append]
      unfold strStartsWith at h ⊢
      simp only [Bool.and_eq_true, decide_eq_true_eq] at h ⊢
      exact ⟨h.1, ih bs h.2⟩

theorem reasonIsConflict_avoid (S : Finset String) :
    reasonIsConflict ("conflicts with avoid list: " ++ joinSorted S) = true := by
  unfold reasonIsConflict
  rw [String.data_append]
  exact strStartsWith_append _ _ _ (by decide)

theorem scoreAvoid_conflict (w : Weights) (h : Hairstyle) (p : ClientPreferences)
    (acc : ℚ × List String) (hconf : p.avoid ∩ h.tags ≠ ∅) :
    (scoreAvoid w h p acc).2 =
      acc.2 ++ ["conflicts with avoid list: " ++ joinSorted (p.avoid ∩ h.tags)] := by
  have hav : p.avoid ≠ ∅ := by
    intro he
    apply hconf
    rw [he, Finset.empty_inter]
  unfold scoreAvoid
  rw [if_pos hav, if_pos hconf]

theorem score_hairstyle (w : Weights) (h : Hairstyle) (p : ClientPreferences) :
    (score w h p).hairstyle = h := rfl

theorem score_reasons (w : Weights) (h : Hairstyle) (p : ClientPreferences) :
    (score w h p).reasons = (scoreAvoid w h p (preAvoid w h p)).2 := rfl

theorem hasConflict_of_conflict (w : Weights) (h : Hairstyle) (p : ClientPreferences)
    (hconf : p.avoid ∩ h.tags ≠ ∅) : hasConflict (score w h p) = true := by
  unfold hasConflict
  rw [score_reasons, scoreAvoid_conflict w h p _ hconf, List.any_append]
  have hc := reasonIsConflict_avoid (p.avoid ∩ h.tags)
  simp [hc]

theorem normaliseKeywords_union (A B : Finset String) :
    normaliseKeywords (A ∪ B) = normaliseKeywords A ∪ normaliseKeywords B := by
  unfold normaliseKeywords
  rw [Finset.filter_union, Finset.image_union]

theorem catalogInsert_ok (rest : List Hairstyle) : ∀ acc : List Hairstyle,
    ((acc ++ rest).map catalogKey).Nodup →
    catalogInsert acc rest = Except.ok (acc ++ rest) := by
  induction rest with
  | nil => intro acc _; rw [List.append_nil]; rfl
  | cons s rest ih =>
    intro acc hnd
    have hmem : catalogKey s ∉ acc.map catalogKey := by
      intro hin
      rw [List.map_append, List.nodup_append] at hnd
      exact hnd.2.2 hin (by simp)
    have hcontains : (acc.map catalogKey).contains (catalogKey s) = false := by
      simpa using hmem
    unfold catalogInsert
    rw [hcontains]
    simp only [Bool.false_eq_true, if_false]
    have hshift : (acc ++ [s]) ++ rest = acc ++ s :: rest := by simp
    rw [ih (acc ++ [s]) (by rw [hshift]; exact hnd), hshift]

theorem catalogInsert_error (rest : List Hairstyle) : ∀ acc : List Hairstyle,
    (acc.map catalogKey).Nodup →
    ¬ ((acc ++ rest).map catalogKey).Nodup →
    ∃ s ∈ rest, 2 ≤ ((acc ++ rest).map catalogKey).count (catalogKey s) ∧
      catalogInsert acc rest = Except.error ("Duplicate hairstyle: " ++ s.name) := by
  induction rest with
  | nil =>
    intro acc hacc hnd
    exact absurd (by simpa using hacc) hnd
  | cons s rest ih =>
    intro acc hacc hnd
    by_cases hc : catalogKey s ∈ acc.map catalogKey
    · refine ⟨s, List.mem_cons_self s rest, ?cnt, ?err⟩
      case cnt =>
        rw [List.map_append, List.count_append]
        have h1 : 1 ≤ (acc.map catalogKey).count (catalogKey s) :=
          List.count_pos_iff.mpr hc
        have h2 : 1 ≤ ((s :: rest).map catalogKey).count (catalogKey s) := by
          apply List.count_pos_iff.mpr
          simp
        omega
      case err =>
        have hcontains : (acc.map catalogKey).contains (catalogKey s) = true := by
          simpa using hc
        unfold catalogInsert
        rw [hcontains]
        simp
    · have hcontains : (acc.map catalogKey).contains (catalogKey s) = false := by
        simpa using hc
      have hshift : (acc ++ [s]) ++ rest = acc ++ s :: rest := by simp
      have hacc2 : ((acc ++ [s]).map catalogKey).Nodup := by
        rw [List.map_append, List.nodup_append]
        refine ⟨hacc, by simp, ?disj⟩
        case disj =>
          intro a ha hb
          simp only [List.map_cons, List.map_nil, List.mem_singleton] at hb
          exact hc (hb ▸ ha)
      have hnd2 : ¬ (((acc ++ [s]) ++ rest).map catalogKey).Nodup := by
        rw [hshift]; exact hnd
      obtain ⟨t, htmem, htcount, hterr⟩ := ih (acc ++ [s]) hacc2 hnd2
      refine ⟨t, List.mem_cons_of_mem s htmem, ?cnt, ?err⟩
      case cnt => rw [← hshift]; exact htcount
      case err =>
        unfold catalogInsert
        rw [hcontains]
        simp only [Bool.false_eq_true, if_false]
        exact hterr

theorem catalogFind_mem (styles : List Hairstyle) (name : String)
    (hnd : (styles.map catalogKey).Nodup) (h : Hairstyle) (hmem : h ∈ styles)
    (heq : lowerStr h.name = lowerStr name) :
    catalogFind styles name = Except.ok h := by
  induction styles with
  | nil => cases hmem
  | cons x rest ih =>
    rw [List.map_cons, List.nodup_cons] at hnd
    by_cases hx : catalogKey x = lowerStr name
    · have hfind : (x :: rest).find? (fun e => catalogKey e == lowerStr name) = some x :=
        List.find?_cons_of_pos _ (by simpa using hx)
      have hhx : h = x := by
        rcases List.mem_cons.mp hmem with rfl | hr
        · rfl
        · exfalso
          have h1 : catalogKey h = catalogKey x := by
            show lowerStr h.name = catalogKey x
            rw [heq, hx]
          have h2 : catalogKey x ∈ rest.map catalogKey :=
            h1 ▸ List.mem_map_of_mem catalogKey hr
          exact hnd.1 h2
      subst hhx
      unfold catalogFind
      rw [hfind]
    · have hh : h ∈ rest := by
        rcases List.mem_cons.mp hmem with rfl | hr
        · exact absurd heq hx
        · exact hr
      have hfind : (x :: rest).find? (fun e => catalogKey e == lowerStr name) =
          rest.find? (fun e => catalogKey e == lowerStr name) :=
        List.find?_cons_of_neg _ (by simpa using hx)
      have htail := ih hnd.2 hh
      unfold catalogFind at htail ⊢
      rw [hfind]
      exact htail

theorem catalogFind_none (styles : List Hairstyle) (name : String)
    (hall : ∀ h ∈ styles, lowerStr h.name ≠ lowerStr name) :
    catalogFind styles name = Except.error ("Unknown hairstyle: " ++ name) := by
  have hfind : styles.find? (fun e => catalogKey e == lowerStr name) = none := by
    rw [List.find?_eq_none]
    intro x hx
    simpa using hall x hx
  unfold catalogFind
  rw [hfind]

/-! ### Concrete fixtures used in witnesses and counterexamples -/

/-- A hairstyle with no attribute data, named `a`. -/
def styleA : Hairstyle := ⟨"a", "", ∅, ∅, ∅, ∅, ∅, "medium", ∅⟩

/-- A hairstyle with no attribute data, named `b`. -/
def styleB : Hairstyle := ⟨"b", "", ∅, ∅, ∅, ∅, ∅, "medium", ∅⟩

/-- A hairstyle named `A`, colliding case-insensitively with `styleA`. -/
def styleA2 : Hairstyle := ⟨"A", "", ∅, ∅, ∅, ∅, ∅, "medium", ∅⟩

/-- A hairstyle whose maintenance is `medium`. -/
def styleMedium : Hairstyle := ⟨"c", "", ∅, ∅, ∅, ∅, ∅, "medium", ∅⟩

/-- A hairstyle whose maintenance is `low`. -/
def styleLow : Hairstyle := ⟨"d", "", ∅, ∅, ∅, ∅, ∅, "low", ∅⟩

/-- Preferences with every field absent or empty. -/
def prefsEmpty : ClientPreferences := ⟨none, none, none, none, none, none, ∅, ∅⟩

/-- Preferences asking for high maintenance only. -/
def prefsHigh : ClientPreferences := ⟨none, none, none, none, none, some "high", ∅, ∅⟩

/-- Preferences asking for low maintenance only. -/
def prefsLow : ClientPreferences := ⟨none, none, none, none, none, some "low", ∅, ∅⟩

/-! ### Claims -/

/-- Claim C1, as amended: the list returned by `rank` is sorted so that for
all adjacent pairs `A` before `B` in the output, either `A.score > B.score`,
or `A.score = B.score` and the lowercased name of `B` is at most the
lowercased name of `A` — ties in score are broken by descending
case-insensitive name, because Python's `reverse=True` reverses the whole
`(score, name)` key comparison. -/
theorem C1_rank_sorted (w : Weights) (ms : ℚ) (catalog : List Hairstyle)
    (p : ClientPreferences) :
    List.Chain' (fun A B => B.score < A.score ∨
      (A.score = B.score ∧
        strLeb (lowerStr B.hairstyle.name).data (lowerStr A.hairstyle.name).data = true))
      (rank w ms catalog p) := by
  have hs : List.Sorted rankRel (rank w ms catalog p) := by
    unfold rank
    exact List.sorted_insertionSort rankRel _
  refine List.Pairwise.chain' (List.Pairwise.imp ?impl hs)
  case impl =>
    intro a b hab
    simp only [rankRel, keyLex, pyKey] at hab
    rcases hab with h | ⟨h, h2⟩
    · exact Or.inl h
    · exact Or.inr ⟨h.symm, h2⟩

/-- Claim C1, counterexample to the claim as stated: on a two-entry catalog
with equal scores, `rank` places the name `b` before the name `a`, so the
adjacent pair has equal scores but the first name is not at most the second
in the claimed ascending case-insensitive order. -/
theorem C1_counterexample :
    rank DEFAULT_WEIGHTS 0 [styleA, styleB] prefsEmpty =
      [⟨styleB, 0, []⟩, ⟨styleA, 0, []⟩] ∧
    ¬ ((⟨styleA, 0, []⟩ : Recommendation).score <
        (⟨styleB, 0, []⟩ : Recommendation).score ∨
      ((⟨styleB, 0, []⟩ : Recommendation).score =
          (⟨styleA, 0, []⟩ : Recommendation).score ∧
        strLeb (lowerStr (⟨styleB, 0, []⟩ : Recommendation).hairstyle.name).data
          (lowerStr (⟨styleA, 0, []⟩ : Recommendation).hairstyle.name).data = true)) := by
  decide

/-- Claim C2: every recommendation surviving `rank` has a hairstyle whose tag
set does not meet the preferences' avoid set — an avoid-tag hit always
produces the "conflicts with" reason, which `rank` filters out regardless of
score. -/
theorem C2_avoid_veto (w : Weights) (ms : ℚ) (catalog : List Hairstyle)
    (p : ClientPreferences) (r : Recommendation)
    (hr : r ∈ rank w ms catalog p) :
    p.avoid ∩ r.hairstyle.tags = ∅ := by
  by_contra hconf
  unfold rank at hr
  rw [List.mem_insertionSort, List.mem_filter] at hr
  obtain ⟨hmem, hcond⟩ := hr
  rw [List.mem_map] at hmem
  obtain ⟨style, _, rfl⟩ := hmem
  rw [score_hairstyle] at hconf
  have hc : hasConflict (score w style p) = true :=
    hasConflict_of_conflict w style p hconf
  rw [Bool.and_eq_true, hc] at hcond
  exact absurd hcond.2 (by decide)

/-- Witness for C2 at a concrete input: the sole scored entry survives
`rank`, and indeed its tags do not meet the (empty) avoid set. -/
theorem C2_witness :
    prefsEmpty.avoid ∩ (⟨styleA, 0, []⟩ : Recommendation).hairstyle.tags = ∅ :=
  C2_avoid_veto DEFAULT_WEIGHTS 0 [styleA] prefsEmpty ⟨styleA, 0, []⟩ (by decide)

/-- Claim C3, as amended: with the preference's maintenance present and
truthy, if either maintenance string fails to map through low=0, medium=1,
high=2, the clause leaves the accumulator unchanged (and raises nothing — it
is total); otherwise ordinal distance 0 adds the full maintenance weight with
reason "meets <preference maintenance> maintenance goal" (the code
interpolates the preference's maintenance value, not the literal word
"exact"), distance 1 adds half the weight with reason "slightly different
maintenance but still manageable", and distance 2 changes nothing. -/
theorem C3_maintenance_scoring (w : Weights) (h : Hairstyle)
    (p : ClientPreferences) (acc : ℚ × List String) (m : String)
    (hm : p.maintenance = some m) (hne : m ≠ "") :
    ((maintenanceLevel m = none ∨ maintenanceLevel h.maintenance = none) →
      scoreMaintenance w h p acc = acc) ∧
    (∀ desired current, maintenanceLevel m = some desired →
      maintenanceLevel h.maintenance = some current →
      ((desired - current).natAbs = 0 →
        scoreMaintenance w h p acc =
          (acc.1 + w.maintenance, acc.2 ++ ["meets " ++ m ++ " maintenance goal"])) ∧
      ((desired - current).natAbs = 1 →
        scoreMaintenance w h p acc =
          (acc.1 + w.maintenance * (1/2),
            acc.2 ++ ["slightly different maintenance but still manageable"])) ∧
      (2 ≤ (desired - current).natAbs → scoreMaintenance w h p acc = acc)) := by
  have key : scoreMaintenance w h p acc =
      (match maintenanceLevel m, maintenanceLevel h.maintenance with
        | some desired, some current =>
          if (desired - current).natAbs = 0 then
            (acc.1 + w.maintenance, acc.2 ++ ["meets " ++ m ++ " maintenance goal"])
          else if (desired - current).natAbs = 1 then
            (acc.1 + w.maintenance * (1/2),
              acc.2 ++ ["slightly different maintenance but still manageable"])
          else acc
        | _, _ => acc) := by
    unfold scoreMaintenance
    rw [hm]
    simp only [if_pos hne]
  constructor
  · intro hnone
    rw [key]
    rcases hnone with hd | hd
    · rw [hd]
    · rw [hd]
      cases maintenanceLevel m <;> rfl
  · intro desired current hd hc
    have key2 : scoreMaintenance w h p acc =
        if (desired - current).natAbs = 0 then
          (acc.1 + w.maintenance, acc.2 ++ ["meets " ++ m ++ " maintenance goal"])
        else if (desired - current).natAbs = 1 then
          (acc.1 + w.maintenance * (1/2),
            acc.2 ++ ["slightly different maintenance but still manageable"])
        else acc := by
      rw [key, hd, hc]
    refine ⟨?d0, ?d1, ?d2⟩
    case d0 => intro h0; rw [key2, if_pos h0]
    case d1 => intro h1; rw [key2, if_neg (by omega), if_pos h1]
    case d2 => intro h2; rw [key2, if_neg (by omega), if_neg (by omega)]

/-- Witness for C3 at a concrete input: preference `high` against hairstyle
`medium` is ordinal distance 1 and adds half the default maintenance weight
with the "slightly different" reason. -/
theorem C3_witness :
    scoreMaintenance DEFAULT_WEIGHTS styleMedium prefsHigh ((0 : ℚ), ([] : List String)) =
      ((0 : ℚ) + DEFAULT_WEIGHTS.maintenance * (1/2),
        ([] : List String) ++ ["slightly different maintenance but still manageable"]) :=
  (((C3_maintenance_scoring DEFAULT_WEIGHTS styleMedium prefsHigh (0, []) "high"
    rfl (by decide)).2 2 1 rfl rfl).2).1 (by decide)

/-- Claim C3, counterexample to the claim as stated: at ordinal distance 0
the emitted reason interpolates the preference's maintenance value ("meets
low maintenance goal"), which is not the claimed literal "meets exact
maintenance goal". -/
theorem C3_counterexample :
    (scoreMaintenance DEFAULT_WEIGHTS styleLow prefsLow ((0 : ℚ), ([] : List String))).2 =
      ["meets low maintenance goal"] ∧
    (scoreMaintenance DEFAULT_WEIGHTS styleLow prefsLow ((0 : ℚ), ([] : List String))).2 ≠
      ["meets exact maintenance goal"] := by
  decide

/-- Claim C4: `recommend` truncates the ranked list to the first
`min(N, length)` entries when `N > 0` and returns the whole ranked list when
`N ≤ 0`. -/
theorem C4_recommend_limit (w : Weights) (ms : ℚ) (catalog : List Hairstyle)
    (p : ClientPreferences) (N : Int) :
    (0 < N → recommend w ms catalog p N = (rank w ms catalog p).take N.toNat ∧
      (recommend w ms catalog p N).length =
        min N.toNat (rank w ms catalog p).length) ∧
    (N ≤ 0 → recommend w ms catalog p N = rank w ms catalog p) := by
  constructor
  · intro hN
    have he : recommend w ms catalog p N = (rank w ms catalog p).take N.toNat := by
      unfold recommend
      rw [if_pos hN]
    refine ⟨he, ?len⟩
    case len => rw [he, List.length_take]
  · intro hN
    unfold recommend
    rw [if_neg (by omega)]

/-- Witness for C4 at concrete limits 1 and -1. -/
theorem C4_witness :
    (recommend DEFAULT_WEIGHTS 0 [styleA, styleB] prefsEmpty 1 =
        (rank DEFAULT_WEIGHTS 0 [styleA, styleB] prefsEmpty).take (Int.toNat 1) ∧
      (recommend DEFAULT_WEIGHTS 0 [styleA, styleB] prefsEmpty 1).length =
        min (Int.toNat 1) (rank DEFAULT_WEIGHTS 0 [styleA, styleB] prefsEmpty).length) ∧
    recommend DEFAULT_WEIGHTS 0 [styleA, styleB] prefsEmpty (-1) =
      rank DEFAULT_WEIGHTS 0 [styleA, styleB] prefsEmpty :=
  ⟨(C4_recommend_limit DEFAULT_WEIGHTS 0 [styleA, styleB] prefsEmpty 1).1 (by decide),
    (C4_recommend_limit DEFAULT_WEIGHTS 0 [styleA, styleB] prefsEmpty (-1)).2 (by decide)⟩

/-- Claim C5: scalar normalization and set normalization are idempotent, and
rebuilding a `ClientPreferences` from the fields of an already-constructed
one changes nothing. -/
theorem C5_normalization_idempotent :
    (∀ v, normVal (normVal v) = normVal v) ∧
    (∀ S, normaliseKeywords (normaliseKeywords S) = normaliseKeywords S) ∧
    (∀ fs hl ht g o m kw av,
      mkPreferences (mkPreferences fs hl ht g o m kw av).face_shape
        (mkPreferences fs hl ht g o m kw av).hair_length
        (mkPreferences fs hl ht g o m kw av).hair_texture
        (mkPreferences fs hl ht g o m kw av).gender
        (mkPreferences fs hl ht g o m kw av).occasion
        (mkPreferences fs hl ht g o m kw av).maintenance
        (mkPreferences fs hl ht g o m kw av).keywords
        (mkPreferences fs hl ht g o m kw av).avoid =
      mkPreferences fs hl ht g o m kw av) := by
  refine ⟨normVal_idem, normaliseKeywords_idem, ?rebuild⟩
  case rebuild =>
    intro fs hl ht g o m kw av
    show mkPreferences (normVal fs) (normVal hl) (normVal ht) (normVal g)
      (normVal o) (normVal m) (normaliseKeywords kw) (normaliseKeywords av) =
      mkPreferences fs hl ht g o m kw av
    unfold mkPreferences
    rw [normVal_idem fs, normVal_idem hl, normVal_idem ht, normVal_idem g,
      normVal_idem o, normVal_idem m, normaliseKeywords_idem kw,
      normaliseKeywords_idem av]

/-- Claim C6: catalog construction returns the styles in insertion order when
all lowercased names are distinct, and otherwise fails with an error naming a
style whose lowercased name occurs at least twice. -/
theorem C6_catalog_construction (styles : List Hairstyle) :
    ((styles.map catalogKey).Nodup → catalogInit styles = Except.ok styles) ∧
    (¬ (styles.map catalogKey).Nodup →
      ∃ s ∈ styles, 2 ≤ (styles.map catalogKey).count (catalogKey s) ∧
        catalogInit styles = Except.error ("Duplicate hairstyle: " ++ s.name)) := by
  constructor
  · intro hnd
    have h := catalogInsert_ok styles [] (by simpa using hnd)
    simpa using h
  · intro hnd
    have h := catalogInsert_error styles [] (by simp) (by simpa using hnd)
    simpa using h

/-- Witness for C6 at concrete inputs: two distinct names construct in
order; the names `a` and `A` collide and construction fails naming `A`. -/
theorem C6_witness :
    catalogInit [styleA, styleB] = Except.ok [styleA, styleB] ∧
    (∃ s ∈ [styleA, styleA2],
      2 ≤ ([styleA, styleA2].map catalogKey).count (catalogKey s) ∧
        catalogInit [styleA, styleA2] =
          Except.error ("Duplicate hairstyle: " ++ s.name)) :=
  ⟨(C6_catalog_construction [styleA, styleB]).1 (by decide),
    (C6_catalog_construction [styleA, styleA2]).2 (by decide)⟩

/-- Claim C7: `rank` is deterministic — two invocations on equal catalog,
preferences, minimum score, and weights produce equal outputs (the embedding
is a pure function, so this is definitional). -/
theorem C7_rank_deterministic (w₁ w₂ : Weights) (ms₁ ms₂ : ℚ)
    (c₁ c₂ : List Hairstyle) (p₁ p₂ : ClientPreferences)
    (hw : w₁ = w₂) (hm : ms₁ = ms₂) (hc : c₁ = c₂) (hp : p₁ = p₂) :
    rank w₁ ms₁ c₁ p₁ = rank w₂ ms₂ c₂ p₂ := by
  subst hw hm hc hp
  rfl

/-- Witness for C7 at a concrete input. -/
theorem C7_witness :
    rank DEFAULT_WEIGHTS 0 [styleA] prefsEmpty =
      rank DEFAULT_WEIGHTS 0 [styleA] prefsEmpty :=
  C7_rank_deterministic DEFAULT_WEIGHTS DEFAULT_WEIGHTS 0 0 [styleA] [styleA]
    prefsEmpty prefsEmpty rfl rfl rfl rfl

/-- Claim C8: on a catalog with distinct lowercased names, `find` returns the
entry whose lowercased name equals the lowercased query, and when no entry
matches it fails with an error carrying the originally-requested name. -/
theorem C8_find (styles : List Hairstyle) (name : String)
    (hnd : (styles.map catalogKey).Nodup) :
    (∀ h, h ∈ styles → lowerStr h.name = lowerStr name →
      catalogFind styles name = Except.ok h) ∧
    ((∀ h, h ∈ styles → lowerStr h.name ≠ lowerStr name) →
      catalogFind styles name = Except.error ("Unknown hairstyle: " ++ name)) :=
  ⟨fun h hmem heq => catalogFind_mem styles name hnd h hmem heq,
    fun hall => catalogFind_none styles name hall⟩

/-- Witness for C8 at concrete inputs: looking up `A` in a catalog holding
`a` succeeds case-insensitively, and looking up `zz` fails carrying `zz`. -/
theorem C8_witness :
    catalogFind [styleA] "A" = Except.ok styleA ∧
    catalogFind [styleA] "zz" = Except.error ("Unknown hairstyle: " ++ "zz") :=
  ⟨(C8_find [styleA] "A" (by decide)).1 styleA (by decide) (by decide),
    (C8_find [styleA] "zz" (by decide)).2 (by decide)⟩

/-- Claim C9: in `from_dict`, a present-but-falsy `keywords` value (such as
the empty list) falls through to `tags`, so the resulting keywords are the
normalized `tags` values. -/
theorem C9_from_dict_tags_fallback (d : PrefsPayload) (l : List String)
    (hk : d.keywords = some []) (ht : d.tags = some l) (hl : l ≠ []) :
    (fromDict d).keywords = normaliseKeywords l.toFinset := by
  have he : fromDict d = mkPreferences d.face_shape d.hair_length d.hair_texture
      d.gender d.occasion d.maintenance ((d.tags.getD []).toFinset)
      ((d.avoid.getD []).toFinset) := by
    unfold fromDict
    rw [hk]
    rfl
  rw [he, ht]
  rfl

/-- Witness for C9 at a concrete input: `keywords=[]` with `tags=["Volume"]`
yields the normalized tags. -/
theorem C9_witness :
    (fromDict ⟨none, none, none, none, none, none, some [], some ["Volume"], none⟩).keywords =
      normaliseKeywords (["Volume"] : List String).toFinset :=
  C9_from_dict_tags_fallback
    ⟨none, none, none, none, none, none, some [], some ["Volume"], none⟩
    ["Volume"] rfl rfl (by decide)

/-- Claim C10: `merge_keywords` returns preferences whose keywords are the
union of the original keywords with the normalized extra keywords, and whose
other seven fields are unchanged (the original value is immutable in the
embedding, so only the field equations carry content). -/
theorem C10_merge_keywords (fs hl ht g o m : Option String)
    (kw av extra : Finset String) (p : ClientPreferences)
    (hp : p = mkPreferences fs hl ht g o m kw av) :
    (mergeKeywords p extra).keywords = p.keywords ∪ normaliseKeywords extra ∧
    (mergeKeywords p extra).face_shape = p.face_shape ∧
    (mergeKeywords p extra).hair_length = p.hair_length ∧
    (mergeKeywords p extra).hair_texture = p.hair_texture ∧
    (mergeKeywords p extra).gender = p.gender ∧
    (mergeKeywords p extra).occasion = p.occasion ∧
    (mergeKeywords p extra).maintenance = p.maintenance ∧
    (mergeKeywords p extra).avoid = p.avoid := by
  subst hp
  refine ⟨?k, ?f1, ?f2, ?f3, ?f4, ?f5, ?f6, ?f7⟩
  case k =>
    show normaliseKeywords (normaliseKeywords kw ∪ normaliseKeywords extra) =
      normaliseKeywords kw ∪ normaliseKeywords extra
    rw [normaliseKeywords_union, normaliseKeywords_idem, normaliseKeywords_idem]
  case f1 => exact normVal_idem fs
  case f2 => exact normVal_idem hl
  case f3 => exact normVal_idem ht
  case f4 => exact normVal_idem g
  case f5 => exact normVal_idem o
  case f6 => exact normVal_idem m
  case f7 => exact normaliseKeywords_idem av

/-- Witness for C10 at a concrete input. -/
theorem C10_witness :
    (mergeKeywords (mkPreferences (some "Heart") none none none none none ∅ ∅)
        {"Waves "}).keywords =
      (mkPreferences (some "Heart") none none none none none ∅ ∅).keywords ∪
        normaliseKeywords {"Waves "} ∧
    (mergeKeywords (mkPreferences (some "Heart") none none none none none ∅ ∅)
        {"Waves "}).face_shape =
      (mkPreferences (some "Heart") none none none none none ∅ ∅).face_shape ∧
    (mergeKeywords (mkPreferences (some "Heart") none none none none none ∅ ∅)
        {"Waves "}).hair_length =
      (mkPreferences (some "Heart") none none none none none ∅ ∅).hair_length ∧
    (mergeKeywords (mkPreferences (some "Heart") none none none none none ∅ ∅)
        {"Waves "}).hair_texture =
      (mkPreferences (some "Heart") none none none none none ∅ ∅).hair_texture ∧
    (mergeKeywords (mkPreferences (some "Heart") none none none none none ∅ ∅)
        {"Waves "}).gender =
      (mkPreferences (some "Heart") none none none none none ∅ ∅).gender ∧
    (mergeKeywords (mkPreferences (some "Heart") none none none none none ∅ ∅)
        {"Waves "}).occasion =
      (mkPreferences (some "Heart") none none none none none ∅ ∅).occasion ∧
    (mergeKeywords (mkPreferences (some "Heart") none none none none none ∅ ∅)
        {"Waves "}).maintenance =
      (mkPreferences (some "Heart") none none none none none ∅ ∅).maintenance ∧
    (mergeKeywords (mkPreferences (some "Heart") none none none none none ∅ ∅)
        {"Waves "}).avoid =
      (mkPreferences (some "Heart") none none none none none ∅ ∅).avoid :=
  C10_merge_keywords (some "Heart") none none none none none ∅ ∅ {"Waves "}
    (mkPreferences (some "Heart") none none none none none ∅ ∅) rfl

end AiHairStylist
